import Mathlib

/-!
Verification development for the `economy-core` dynamic-pricing service.

The Rust sources are embedded shallowly: `f64` values become real numbers
(`ℝ`), machine rounding `(x * 100.0).round() / 100.0` becomes an exact
rounding on `ℝ`, stateful code becomes explicit state passing, and the
external effects (identity check, clock, random noise, channel) become
explicit parameters.  The repository contains two co-existing rewrites of
the pricing logic (`src/logic/pricing.rs` and the `pricing` module inside
`src/logic.rs`); both are embedded, in the namespaces `Pricing` and
`Logic` respectively.
-/

namespace EconomyCore

/-! ## Rounding helpers (models.rs `Roundable::round_2`, and `f64::round`)

Rust's `f64::round` rounds half away from zero; Mathlib's `round` rounds
half up.  The two agree on non-negative arguments; `fround` models the
Rust behaviour on all of `ℝ`. -/

/-- Rust `f64::round`: round half away from zero. -/
noncomputable def fround (x : ℝ) : ℤ := if 0 ≤ x then round x else -round (-x)

/-- `models.rs` `Roundable::round_2`: `(self * 100.0).round() / 100.0`. -/
noncomputable def round_2 (x : ℝ) : ℝ := (fround (x * 100) : ℝ) / 100

/-- Three-decimal rounding `(x * 1000.0).round() / 1000.0` used for the
`env_index` field of a trade response (`build_resp` in `logic.rs`). -/
noncomputable def round_3 (x : ℝ) : ℝ := (fround (x * 1000) : ℝ) / 1000

theorem fround_of_nonneg {x : ℝ} (hx : 0 ≤ x) : fround x = round x := if_pos hx

theorem abs_fround_sub (x : ℝ) : |(fround x : ℝ) - x| ≤ 1 / 2 := by
  unfold fround
  split_ifs with h
  · rw [abs_sub_comm]
    exact abs_sub_round x
  · push_cast
    have := abs_sub_round (-x)
    rw [abs_sub_comm] at this
    calc |(-(round (-x) : ℝ)) - x| = |(round (-x) : ℝ) - (-x)| := by rw [← abs_neg]; ring_nf
    _ ≤ 1 / 2 := this

theorem abs_round_2_sub (x : ℝ) : |round_2 x - x| ≤ 1 / 200 := by
  have h := abs_fround_sub (x * 100)
  have e : round_2 x - x = ((fround (x * 100) : ℝ) - x * 100) / 100 := by
    unfold round_2; ring
  rw [e, abs_div, abs_of_pos (show (0:ℝ) < 100 by norm_num)]
  linarith

theorem round_2_nonneg {x : ℝ} (hx : 0 ≤ x) : 0 ≤ round_2 x := by
  unfold round_2
  rw [fround_of_nonneg (by positivity)]
  have : (0 : ℤ) ≤ round (x * 100) := by
    rw [round_eq]
    exact Int.floor_nonneg.mpr (by positivity)
  positivity

theorem round_2_eq_zero {x : ℝ} (h0 : 0 ≤ x) (h : x < 1 / 200) : round_2 x = 0 := by
  unfold round_2
  rw [fround_of_nonneg (by positivity)]
  have : round (x * 100) = 0 := by
    rw [round_eq_zero_iff, Set.mem_Ico]
    constructor <;> linarith
  rw [this]
  norm_num

theorem round_le_mono {x y : ℝ} (h : x ≤ y) : round x ≤ round y := by
  rw [round_eq, round_eq]
  exact Int.floor_mono (by linarith)

/-! ## Data model (`models.rs`)

Only the fields the embedded logic reads are kept.  `f64` fields become
`ℝ`, `i64` timestamps become `ℤ`, maps become association lists or
functions. -/

/-- `models.rs` `SalesRecord`. -/
structure SalesRecord where
  timestamp : ℤ
  amount : ℝ
  env_index : ℝ
  price : ℝ
deriving Inhabited

/-- `models.rs` `AppConfig` (the fields used by the embedded logic). -/
structure AppConfig where
  global_iota : ℝ
  base_env_index : ℝ
  noise_std : ℝ
  weekend_factor : ℝ
  holiday_factor : ℝ
  public_holiday_factor : ℝ
  buy_premium : ℝ
  recovery_delta : ℝ
  recovery_tau : ℝ
  is_online_mode : Bool
  winter_start : String
  winter_end : String
  summer_start : String
  summer_end : String
deriving Inhabited

/-- `models.rs` `TradeRequest`. -/
structure TradeRequest where
  player_id : String
  player_name : String
  item_id : String
  amount : ℝ
  base_price : ℝ
  decay_lambda : ℝ
  iota : Option ℝ
  manual_env_index : Option ℝ
  is_preview : Bool
deriving Inhabited

/-- `models.rs` `TradeResponse`. -/
structure TradeResponse where
  success : Bool
  message : String
  final_price : ℝ
  total_price : ℝ
  unit_price_avg : ℝ
  env_index : ℝ
  effective_n : ℝ
deriving Inhabited

/-- `models.rs` `TransactionRecord`. -/
structure TransactionRecord where
  timestamp : ℤ
  amount : ℝ
  total_price : ℝ
  avg_price : ℝ
  env_index : ℝ
  action : String
  player_id : String
  player_name : String
  item_id : String
  note : String
deriving Inhabited

/-- `models.rs` `PlayerSalesHistory`; the `FxHashMap<String, Vec<SalesRecord>>`
becomes an association list. -/
structure PlayerSalesHistory where
  player_name : String
  item_sales : List (String × List SalesRecord)
deriving Inhabited

/-! ## Pricing engine, `src/logic/pricing.rs` variant -/

namespace Pricing

/-- `PricingEngine::calculate_integral_revenue` from `src/logic/pricing.rs`.

The Rust guard is
`!amount.is_finite() || amount <= 0.0 || !base_price.is_finite() || base_price <= 0.0`;
over `ℝ` every value is finite, so only the sign tests remain here (the
finiteness tests are modelled in `calculate_integral_revenue_checked`).
Likewise `!revenue.is_finite()` in the result check is vacuous over `ℝ`,
leaving `revenue < 0.0`. -/
noncomputable def calculate_integral_revenue
    (base_price env_index start_n amount lambda : ℝ) : ℝ :=
  if amount ≤ 0 ∨ base_price ≤ 0 then 0
  else
    let p_max := env_index * base_price
    let abs_lambda := |lambda|
    if abs_lambda < 1e-10 then round_2 (p_max * amount)
    else
      let n_end := start_n + amount
      let exp_start := Real.exp (-abs_lambda * start_n)
      let exp_end := Real.exp (-abs_lambda * n_end)
      let revenue := (p_max / abs_lambda) * (exp_start - exp_end)
      if revenue < 0 then 0 else round_2 revenue

/-- An `f64` value: either a finite real or one of the special values.
Used to state totality of the pricing guard over the full `f64` domain. -/
inductive F64 where
  | val : ℝ → F64
  | posInf : F64
  | negInf : F64
  | nan : F64

/-- `f64::is_finite`. -/
def F64.isFinite : F64 → Bool
  | .val _ => true
  | _ => false

/-- The real value of a finite `F64` (junk value `0` otherwise; only read
behind an `isFinite` guard, mirroring Rust's short-circuit `||`). -/
noncomputable def F64.toReal : F64 → ℝ
  | .val x => x
  | _ => 0

/-- The IEEE comparison `x <= 0.0` on an `f64`: false for `NaN` and `+∞`,
true for `-∞`, the real comparison otherwise. -/
def F64.leZero : F64 → Prop
  | .val x => x ≤ 0
  | .negInf => True
  | _ => False

/-- `PricingEngine::calculate_integral_revenue` with the `is_finite`
guards on `amount` and `base_price` made explicit over the `f64` domain
(the source checks exactly these two inputs for finiteness before any
arithmetic). -/
noncomputable def calculate_integral_revenue_checked
    (base_price amount : F64) (env_index start_n lambda : ℝ) : ℝ :=
  if ¬ amount.isFinite ∨ ¬ base_price.isFinite then 0
  else calculate_integral_revenue base_price.toReal env_index start_n amount.toReal lambda

/-- `PricingEngine::calculate_effective_n`, identical in
`src/logic/pricing.rs` and in the `pricing` module of `src/logic.rs`:
`n_eff = max(0, ι + Σ amount_i · decay_i)` with
`decay_i = exp(-δ · (Δt_i/τ))` when `δ > 0` and `1` otherwise. -/
noncomputable def calculate_effective_n (history : List SalesRecord) (iota : ℝ)
    (config : AppConfig) (current_timestamp_ms : ℤ) : ℝ :=
  let total_n_eff := (history.map (fun record =>
    let elapsed_secs := max (((current_timestamp_ms : ℝ) - (record.timestamp : ℝ)) / 1000) 0
    let decay := if 0 < config.recovery_delta then
        Real.exp (-config.recovery_delta * (elapsed_secs / config.recovery_tau))
      else 1
    record.amount * decay)).sum
  max (total_n_eff + iota) 0

end Pricing

/-! ## Pricing engine, `src/logic.rs` `pricing` module variant -/

namespace Logic

/-- `PricingEngine::integral_revenue` from the `pricing` module of
`src/logic.rs`.  Note the degenerate-case threshold is
`constants::LAMBDA_MIN = 1e-9` here, not the `1e-10` of
`src/logic/pricing.rs`. -/
noncomputable def integral_revenue (base env n1 amt lambda : ℝ) : ℝ :=
  let p_max := base * env
  let l := |lambda|
  if l < 1e-9 then round_2 (p_max * amt)
  else
    let n2 := n1 + amt
    let revenue := (p_max / l) * (Real.exp (-l * n1) - Real.exp (-l * n2))
    round_2 (max revenue 0)

/-- `PricingEngine::buy_logic` from `src/logic.rs` (`base` already carries
the buy premium; `constants::EPSILON_AMT = 1e-10`). -/
noncomputable def buy_logic (base env n_eff amt lambda : ℝ) : ℝ :=
  let n_start := max (n_eff - amt) 0
  let discount_amt := max (n_eff - n_start) 0
  if discount_amt < amt then
    let premium_amt := amt - discount_amt
    let p_discount := if 1e-10 < discount_amt then
        integral_revenue base env n_start discount_amt lambda
      else 0
    p_discount + premium_amt * base * env
  else
    integral_revenue base env n_start amt lambda

/-- `PricingEngine::calculate_price` from `src/logic.rs`. -/
noncomputable def calculate_price (base env n amt lambda premium : ℝ)
    (is_buy : Bool) : ℝ :=
  if is_buy then buy_logic (base * premium) env n amt lambda
  else integral_revenue base env n amt lambda

end Logic

/-! ## Environment engine (`environment` module of `src/logic.rs`)

`perform_calc` is a pure function of the formatted date strings, the
weekday, the config, the holiday table and the sampled Gaussian noise;
the clock and the RNG are passed in explicitly.  The per-second cache and
its double-checked locking around it are concurrency plumbing and are not
modelled. -/

namespace Logic

/-- `is_range` from `src/logic.rs`: date-string interval test with
wrap-around (`start > end` means `≥ start OR ≤ end`). -/
def is_range (curr s e : String) : Bool :=
  if s ≤ e then curr ≥ s && curr ≤ e
  else curr ≥ s || curr ≤ e

/-- `environment::perform_calc` from `src/logic.rs`: start from
`base_env_index`, subtract the holiday / seasonal / weekend factors, add
the sampled noise, clamp at `constants::MIN_ENV_INDEX = 0.05`. -/
def perform_calc (ymd md : String) (weekday_from_monday : ℕ) (config : AppConfig)
    (hols : List (String × Bool)) (noise : ℝ) : ℝ × String :=
  let is_off := (hols.lookup ymd).getD false
  let s1 := if is_off then
      (config.base_env_index - config.public_holiday_factor, ["Holiday"])
    else (config.base_env_index, [])
  let s2 := if is_range md config.winter_start config.winter_end then
      (s1.1 - config.holiday_factor, s1.2 ++ ["Winter"])
    else if is_range md config.summer_start config.summer_end then
      (s1.1 - config.holiday_factor, s1.2 ++ ["Summer"])
    else s1
  let s3 := if 6 ≤ weekday_from_monday && !is_off then
      (s2.1 - config.weekend_factor, s2.2 ++ ["Weekend"])
    else s2
  let note := if s3.2.isEmpty then "Normal" else String.intercalate "+" s3.2
  (max (s3.1 + noise) 0.05, note)

/-- `TradeContext::resolve_env` from `src/logic.rs`: a finite positive
`manualEnvIndex` short-circuits the environment computation (`computed`
is the value `calculate_current_env_index` would return, i.e. a cached or
fresh `perform_calc` result).  Finiteness of `m` is automatic over `ℝ`. -/
noncomputable def resolve_env (manual_env_index : Option ℝ)
    (computed : ℝ × String) : ℝ × String :=
  match manual_env_index with
  | some m => if 0 < m then (m, "Manual") else computed
  | none => computed

/-! ## Trade orchestration (`src/logic.rs`) -/

/-- `empty_resp` from `src/logic.rs`. -/
def empty_resp (env n : ℝ) : TradeResponse :=
  { success := false, message := "交易无效", final_price := 0, total_price := 0,
    unit_price_avg := 0, env_index := env, effective_n := n }

/-- `build_resp` from `src/logic.rs` (`constants::EPSILON_AMT = 1e-10`). -/
noncomputable def build_resp (total amt env n_eff : ℝ) : TradeResponse :=
  let t := |total|
  { success := true, message := "", final_price := round_2 t, total_price := round_2 t,
    unit_price_avg := if 1e-10 < amt then round_2 (t / amt) else 0,
    env_index := round_3 env, effective_n := round_2 n_eff }

/-- `validate_player` from `src/logic.rs`: offline mode accepts any
`player_id` of length ≥ 32; online mode queries the Mojang session
server, whose outcome is the oracle `mojang_ok`. -/
def validate_player (req : TradeRequest) (online : Bool) (mojang_ok : Bool) : Bool :=
  if !online then decide (32 ≤ req.player_id.length) else mojang_ok

/-- `TradeContext::create_record` from `src/logic.rs`: a record is built
iff the request is not a preview and the (rounded) total price is
positive. -/
noncomputable def create_record (req : TradeRequest) (resp : TradeResponse)
    (note : String) (is_buy : Bool) (ts : ℤ) : Option TransactionRecord :=
  if req.is_preview ∨ resp.total_price ≤ 0 then none
  else some
    { timestamp := ts, amount := req.amount, total_price := resp.total_price,
      avg_price := resp.unit_price_avg, env_index := resp.env_index,
      action := if is_buy then "BUY" else "SELL",
      player_id := req.player_id, player_name := req.player_name,
      item_id := req.item_id, note := note }

/-- `execute_trade_logic` + `TradeContext::execute` from `src/logic.rs`.
External effects are explicit parameters: `mojang_ok` is the identity
verifier's verdict, `computed_env` is what `calculate_current_env_index`
returns (cache or fresh computation), `now_ms` the clock.  The
`!req.amount.is_finite()` part of the validation is vacuous over `ℝ`. -/
noncomputable def execute_trade_logic (req : TradeRequest) (config : AppConfig)
    (player_history : PlayerSalesHistory) (is_buy : Bool) (mojang_ok : Bool)
    (computed_env : ℝ × String) (now_ms : ℤ) :
    TradeResponse × Option TransactionRecord :=
  if |req.amount| < 1e-10 then
    ({ empty_resp 1 0 with message := "交易量无效 (过小或非数值)" }, none)
  else if !validate_player req config.is_online_mode mojang_ok then
    ({ empty_resp 1 0 with
        success := false
        message := "身份验证失败: ID无效或正版验证超时" }, none)
  else
    let env := resolve_env req.manual_env_index computed_env
    let history := (player_history.item_sales.lookup req.item_id).getD []
    let iota := req.iota.getD config.global_iota
    let n_eff := Pricing.calculate_effective_n history iota config now_ms
    let total_price := calculate_price req.base_price env.1 n_eff req.amount
      req.decay_lambda config.buy_premium is_buy
    let resp0 := build_resp total_price req.amount env.1 n_eff
    let resp := { resp0 with success := true, message := "交易成功 | 环境: " ++ env.2 }
    (resp, create_record req resp env.2 is_buy now_ms)

end Logic

/-! ## Persistence pipeline and shared state (`api.rs`, `main.rs`)

The mutable shared state (player histories, bounded channel, in-memory
history ring, metric counters) is modelled explicitly; `persist_transaction`
(`api.rs`) and one loop iteration of `background_writer_task` (`main.rs`)
become state-transition functions.  The spec additionally postulates an
"emergency memory ring" for records dropped on backpressure; the source
has no such structure, so the state carries an `emergency_ring` field that
the source transitions never touch, purely so that the spec's claim about
it can be stated and refuted. -/

namespace Api

/-- `main.rs` `CHANNEL_CAPACITY`. -/
def CHANNEL_CAPACITY : ℕ := 2000

/-- `main.rs` `MAX_CACHE_SIZE` (history ring capacity). -/
def MAX_CACHE_SIZE : ℕ := 1000

/-- `main.rs` `SystemMetrics` (atomic counters). -/
structure SystemMetrics where
  total_trades : ℕ
  write_failures : ℕ
  channel_dropped : ℕ
deriving Inhabited

/-- The shared mutable state reachable from `AppState` that the embedded
transitions read or write.  `emergency_ring` models the ring the spec
postulates; no source code writes it. -/
structure SysState where
  player_histories : String → PlayerSalesHistory
  channel : List TransactionRecord
  history_ring : List TransactionRecord
  metrics : SystemMetrics
  emergency_ring : List TransactionRecord
  warn_log : List String

/-- The `SalesRecord` that `persist_transaction` (`api.rs`) derives from a
`TransactionRecord`: amount is negated for buys, unit price guarded by
`|amount| > 1e-9`. -/
noncomputable def record_to_sales (record : TransactionRecord) : SalesRecord :=
  { timestamp := record.timestamp,
    amount := if record.action = "SELL" then record.amount else -record.amount,
    env_index := record.env_index,
    price := if 1e-9 < |record.amount| then record.total_price / record.amount else 0 }

/-- `items.push(...); if items.len() > 100 { items.remove(0); }` from
`persist_transaction` (`api.rs`): append, then drop the oldest entry when
the length exceeds 100. -/
def push_trunc (items : List SalesRecord) (r : SalesRecord) : List SalesRecord :=
  let pushed := items ++ [r]
  if 100 < pushed.length then pushed.drop 1 else pushed

/-- Update the association list behind `entry.item_sales.entry(item).or_default()`:
modify the value at `k` (defaulting to `[]`) with `f`. -/
def update_assoc (l : List (String × List SalesRecord)) (k : String)
    (f : List SalesRecord → List SalesRecord) : List (String × List SalesRecord) :=
  match l with
  | [] => [(k, f [])]
  | (k', v) :: rest =>
      if k' = k then (k', f v) :: rest else (k', v) :: update_assoc rest k f

/-- The player-history update performed by `persist_transaction` (`api.rs`):
`histories.entry(player).or_default()`, refresh the player name, push the
derived sales record into the per-item sequence, truncate past 100. -/
noncomputable def update_player_histories (h : String → PlayerSalesHistory)
    (record : TransactionRecord) : String → PlayerSalesHistory :=
  fun pid =>
    if pid = record.player_id then
      let entry := h pid
      { player_name := record.player_name,
        item_sales := update_assoc entry.item_sales record.item_id
          (fun items => push_trunc items (record_to_sales record)) }
    else h pid

/-- `persist_transaction` from `api.rs`: bump `total_trades`, update the
player history in memory, then `try_send` the record on the bounded
channel; when the channel is full, bump `channel_dropped` and log a
warning.  Nothing else happens on the drop path: in particular the source
never touches any emergency ring. -/
noncomputable def persist_transaction (s : SysState) (record : TransactionRecord) :
    SysState :=
  let s1 := { s with
    metrics := { s.metrics with total_trades := s.metrics.total_trades + 1 }
    player_histories := update_player_histories s.player_histories record }
  if s1.channel.length < CHANNEL_CAPACITY then
    { s1 with channel := s1.channel ++ [record] }
  else
    { s1 with
      metrics := { s1.metrics with channel_dropped := s1.metrics.channel_dropped + 1 }
      warn_log := s1.warn_log ++ ["写入通道背压过高，丢弃日志以保护 API 响应速度"] }

/-- One `Some(record) = rx.recv()` arm of `background_writer_task`
(`main.rs`): pop the channel head, push it onto the in-memory ring,
`pop_front` when the ring exceeds `MAX_CACHE_SIZE`.  (The batch buffer and
the file writes do not touch the modelled state.) -/
def writer_recv (s : SysState) : SysState :=
  match s.channel with
  | [] => s
  | record :: rest =>
      let ring := s.history_ring ++ [record]
      { s with channel := rest
               history_ring := if MAX_CACHE_SIZE < ring.length then ring.drop 1 else ring }

/-- An interleaving step of the persistence pipeline: either some handler
persists a record, or the background writer consumes one from the channel. -/
inductive SysStep where
  | persist : TransactionRecord → SysStep
  | writer : SysStep

noncomputable def sys_step (s : SysState) : SysStep → SysState
  | .persist r => persist_transaction s r
  | .writer => writer_recv s

noncomputable def run_steps (s : SysState) (steps : List SysStep) : SysState :=
  steps.foldl sys_step s

/-- The freshly started system of `main.rs` (empty maps / queues,
zeroed counters; `or_default` yields the `Default` player history). -/
def init_state : SysState :=
  { player_histories := fun _ => { player_name := "", item_sales := [] }
    channel := []
    history_ring := []
    metrics := { total_trades := 0, write_failures := 0, channel_dropped := 0 }
    emergency_ring := []
    warn_log := [] }

/-- `TradeRequest::validate` + `process_trade` from `api.rs`: validation
errors return a `BadRequest` without touching any state; otherwise the
trade logic runs and, if it yields a record, `persist_transaction` runs. -/
noncomputable def process_trade (req : TradeRequest) (config : AppConfig)
    (player_history : PlayerSalesHistory) (is_buy : Bool) (mojang_ok : Bool)
    (computed_env : ℝ × String) (now_ms : ℤ) (s : SysState) :
    Except String TradeResponse × SysState :=
  if |req.amount| ≤ 1e-10 then (.error "交易量绝对值必须大于 0", s)
  else if req.player_id = "" then (.error "玩家ID缺失", s)
  else
    let out := Logic.execute_trade_logic req config player_history is_buy
      mojang_ok computed_env now_ms
    match out.2 with
    | some r => (.ok out.1, persist_transaction s r)
    | none => (.ok out.1, s)

/-! ## Batch handler (`handle_batch_sell`, `api.rs`)

`stream::iter(requests).map(pipeline).buffer_unordered(10).collect()`
starts the element pipelines in input order, keeps at most 10 in flight,
and collects the responses **in completion order**.  A completion
schedule is a permutation of the element indices; with window 10, the
element with input index `k` cannot complete before `k - 9` earlier
elements have completed, i.e. its position in the schedule is ≥ `k - 9`. -/

/-- A completion order that `buffer_unordered(10)` can produce for `n`
elements. -/
def admissible_schedule (n : ℕ) (sched : List ℕ) : Prop :=
  sched.Perm (List.range n) ∧ ∀ k ∈ sched, k ≤ sched.indexOf k + 9

instance (n : ℕ) (sched : List ℕ) : Decidable (admissible_schedule n sched) := by
  unfold admissible_schedule
  infer_instance

/-- The response of one element of `handle_batch_sell` (`api.rs`): the
snapshotting plus `execute_trade_logic(..., is_buy = false, ...)`; the
persistence side effect does not influence the element's response. -/
noncomputable def batch_element (config : AppConfig) (player_history : PlayerSalesHistory)
    (mojang_ok : Bool) (computed_env : ℝ × String) (now_ms : ℤ)
    (req : TradeRequest) : TradeResponse :=
  (Logic.execute_trade_logic req config player_history false mojang_ok
    computed_env now_ms).1

/-- The result list `handle_batch_sell` collects under a given completion
schedule: the element responses listed in completion order. -/
noncomputable def run_batch (f : TradeRequest → TradeResponse)
    (reqs : List TradeRequest) (sched : List ℕ) : List TradeResponse :=
  sched.map (fun i => f (reqs.getD i default))

end Api

/-! ## Shared concrete test fixtures -/

/-- A concrete config with the `models.rs` defaults except
`recovery_delta = 0` (the spec allows any `δ ≥ 0`). -/
def test_config : AppConfig :=
  { global_iota := 0, base_env_index := 1, noise_std := 0.025,
    weekend_factor := 0.02, holiday_factor := 0.15, public_holiday_factor := 0.1,
    buy_premium := 1.25, recovery_delta := 0, recovery_tau := 3600,
    is_online_mode := false, winter_start := "01-15", winter_end := "02-20",
    summer_start := "07-01", summer_end := "08-31" }

/-! ## Claim C3: lower bound of the effective inventory -/

/-- **C3, counterexample.**  The claim asserts `n_eff ≥ max(0, ι)` for
*every* non-empty history.  With a single buy record (`amount = -3`,
spec'd signed semantics), `ι = 5`, `δ = 0`, `τ = 3600` and `t = 0 =
max tᵢ`, the code yields `n_eff = max(0, -3 + 5) = 2 < 5 = max(0, ι)`. -/
theorem c3_counterexample :
    Pricing.calculate_effective_n
      [{ timestamp := 0, amount := -3, env_index := 1, price := 0 }]
      5 test_config 0 < max (0:ℝ) 5 := by
  unfold Pricing.calculate_effective_n test_config
  norm_num [max_def]

/-- **C3 (amended).**  For every non-empty sales history whose record
amounts are all non-negative (sell-only history), every `ι`, every config
with `τ > 0` and `δ ≥ 0`, and every current time `t ≥ max tᵢ`, the
effective inventory satisfies `n_eff ≥ max(0, ι)` (finiteness is inherent
to the real-valued embedding).  The original claim, which allowed signed
(buy) amounts, is refuted by `c3_counterexample`. -/
theorem c3_effective_n_lower_bound (history : List SalesRecord) (iota : ℝ)
    (config : AppConfig) (t : ℤ)
    (_hne : history ≠ [])
    (_htau : 0 < config.recovery_tau)
    (_hdelta : 0 ≤ config.recovery_delta)
    (_hts : ∀ r ∈ history, r.timestamp ≤ t)
    (hamt : ∀ r ∈ history, 0 ≤ r.amount) :
    max 0 iota ≤ Pricing.calculate_effective_n history iota config t := by
  unfold Pricing.calculate_effective_n
  have hsum : 0 ≤ (history.map (fun record =>
      let elapsed_secs := max (((t : ℝ) - (record.timestamp : ℝ)) / 1000) 0
      let decay := if 0 < config.recovery_delta then
          Real.exp (-config.recovery_delta * (elapsed_secs / config.recovery_tau))
        else 1
      record.amount * decay)).sum := by
    apply List.sum_nonneg
    intro x hx
    rw [List.mem_map] at hx
    obtain ⟨r, hr, rfl⟩ := hx
    have h1 := hamt r hr
    have h2 : (0:ℝ) < if 0 < config.recovery_delta then
        Real.exp (-config.recovery_delta *
          ((max (((t : ℝ) - (r.timestamp : ℝ)) / 1000) 0) / config.recovery_tau))
      else 1 := by
      split_ifs
      · exact Real.exp_pos _
      · norm_num
    exact mul_nonneg h1 (le_of_lt h2)
  apply max_le
  · exact le_max_right _ 0
  · calc iota ≤ (history.map _).sum + iota := by linarith
    _ ≤ max ((history.map _).sum + iota) 0 := le_max_left _ 0

/-- **C3, witness.** -/
theorem c3_witness :
    ([({ timestamp := 0, amount := 2, env_index := 1, price := 0 } : SalesRecord)] ≠ []) ∧
    (0:ℝ) < test_config.recovery_tau ∧ (0:ℝ) ≤ test_config.recovery_delta ∧
    max 0 (3:ℝ) ≤ Pricing.calculate_effective_n
      [{ timestamp := 0, amount := 2, env_index := 1, price := 0 }] 3 test_config 7 :=
  ⟨by simp, by norm_num [test_config], by norm_num [test_config],
    c3_effective_n_lower_bound _ 3 test_config 7 (by simp) (by norm_num [test_config])
      (by norm_num [test_config]) (by intro r hr; simp at hr; simp [hr])
      (by intro r hr; simp at hr; simp [hr])⟩

/-! ## Claim C4: environment-index floor -/

/-- **C4, counterexample.**  The claim asserts `ε ≥ 0.05` also for
requests supplying a `manualEnvIndex`.  But `TradeContext::resolve_env`
passes any finite positive manual value straight through: a request with
`manualEnvIndex = 0.01` yields `ε = 0.01 < 0.05`, and the trade response
carries `envIndex = 0.01`. -/
theorem c4_counterexample :
    (Logic.resolve_env (some 0.01) (1, "Normal")).1 < 0.05 ∧
    (Logic.build_resp 10 1 (Logic.resolve_env (some 0.01) (1, "Normal")).1 0).env_index < 0.05 := by
  have h : Logic.resolve_env (some 0.01) (1, "Normal") = (0.01, "Manual") := by
    unfold Logic.resolve_env
    norm_num
  constructor
  · rw [h]; norm_num
  · rw [h]
    unfold Logic.build_resp round_3
    norm_num [fround, round_eq]

/-- **C4 (amended).**  The environment index produced by the environment
*computation* (`perform_calc`) is always ≥ 0.05 (and finite, inherent to
`ℝ`), for every date, weekday, config, holiday table and noise sample;
a request without a usable `manualEnvIndex` therefore sees `ε ≥ 0.05`,
and the `envIndex` the response carries (rounded to 3 decimals) stays
≥ 0.05.  A finite positive `manualEnvIndex m`, however, is used verbatim
(`ε = m`), so only `ε > 0` holds on that path — refuting the original
claim (`c4_counterexample`). -/
theorem c4_env_floor :
    (∀ (ymd md : String) (wd : ℕ) (config : AppConfig)
        (hols : List (String × Bool)) (noise : ℝ),
        0.05 ≤ (Logic.perform_calc ymd md wd config hols noise).1) ∧
    (∀ computed : ℝ × String, Logic.resolve_env none computed = computed) ∧
    (∀ (m : ℝ) (computed : ℝ × String), 0 < m →
        Logic.resolve_env (some m) computed = (m, "Manual")) ∧
    (∀ x : ℝ, 0.05 ≤ x → 0.05 ≤ round_3 x) := by
  refine ⟨?_, ?_, ?_, ?_⟩
  · intro ymd md wd config hols noise
    unfold Logic.perform_calc
    exact le_max_right _ _
  · intro computed
    rfl
  · intro m computed hm
    simp only [Logic.resolve_env]
    rw [if_pos hm]
  · intro x hx
    unfold round_3
    rw [fround_of_nonneg (by linarith)]
    have h50 : ((50:ℤ):ℝ) ≤ (round (x * 1000) : ℝ) := by
      have : round ((50:ℝ)) ≤ round (x * 1000) := round_le_mono (by linarith)
      have e : round ((50:ℝ)) = 50 := by norm_num [round_eq]
      exact_mod_cast e ▸ this
    push_cast at h50
    linarith

/-- **C4, witness.** -/
theorem c4_witness :
    0.05 ≤ (Logic.perform_calc "2024-05-20" "05-20" 1 test_config [] 0).1 ∧
    Logic.resolve_env none ((1:ℝ), "Normal") = ((1:ℝ), "Normal") ∧
    ((0:ℝ) < 2 ∧ Logic.resolve_env (some 2) ((1:ℝ), "Normal") = ((2:ℝ), "Manual")) ∧
    ((0.05:ℝ) ≤ 0.07 ∧ (0.05:ℝ) ≤ round_3 0.07) :=
  ⟨c4_env_floor.1 "2024-05-20" "05-20" 1 test_config [] 0,
   c4_env_floor.2.1 (1, "Normal"),
   ⟨by norm_num, c4_env_floor.2.2.1 2 (1, "Normal") (by norm_num)⟩,
   ⟨by norm_num, c4_env_floor.2.2.2 0.07 (by norm_num)⟩⟩

/-! ## Claim C5: record emission -/

theorem create_record_isSome (req : TradeRequest) (resp : TradeResponse)
    (note : String) (b : Bool) (ts : ℤ) :
    (Logic.create_record req resp note b ts).isSome ↔
      (¬ req.is_preview ∧ 0 < resp.total_price) := by
  unfold Logic.create_record
  by_cases h : req.is_preview = true ∨ resp.total_price ≤ 0
  · rw [if_pos h]
    simp only [Option.isSome_none, Bool.false_eq_true, false_iff]
    intro hand
    rcases h with h | h
    · exact hand.1 h
    · linarith [hand.2]
  · rw [if_neg h]
    push_neg at h
    simp only [Option.isSome_some, true_iff]
    exact ⟨h.1, h.2⟩

/-- **C5 (confirmed).**  For every trade request that passes validation
(`|amount| ≥ 1e-10`) and the identity check, the trade logic emits a
`TransactionRecord` iff the request is not a preview and the computed
`totalPrice` is strictly positive; on validation or identity failure no
record is emitted, and a record-less trade leaves the shared state
untouched (`process_trade` only mutates state through
`persist_transaction`, which runs only when a record exists). -/
theorem c5_record_iff (req : TradeRequest) (config : AppConfig)
    (ph : PlayerSalesHistory) (is_buy : Bool) (mojang_ok : Bool)
    (env : ℝ × String) (now_ms : ℤ) :
    (¬ (|req.amount| < 1e-10) →
      Logic.validate_player req config.is_online_mode mojang_ok = true →
      ((Logic.execute_trade_logic req config ph is_buy mojang_ok env now_ms).2.isSome ↔
        (¬ req.is_preview ∧
          0 < (Logic.execute_trade_logic req config ph is_buy mojang_ok env now_ms).1.total_price))) ∧
    (|req.amount| < 1e-10 →
      (Logic.execute_trade_logic req config ph is_buy mojang_ok env now_ms).2 = none) ∧
    (Logic.validate_player req config.is_online_mode mojang_ok = false →
      (Logic.execute_trade_logic req config ph is_buy mojang_ok env now_ms).2 = none) ∧
    (∀ s : Api.SysState,
      (Logic.execute_trade_logic req config ph is_buy mojang_ok env now_ms).2 = none →
      (Api.process_trade req config ph is_buy mojang_ok env now_ms s).2 = s) := by
  refine ⟨?_, ?_, ?_, ?_⟩
  · intro hamt hval
    unfold Logic.execute_trade_logic
    rw [if_neg hamt, if_neg (by simp [hval])]
    simp only []
    rw [create_record_isSome]
  · intro hamt
    unfold Logic.execute_trade_logic
    rw [if_pos hamt]
  · intro hval
    unfold Logic.execute_trade_logic
    split_ifs with h1 h2
    · rfl
    · rfl
    · rw [hval] at h2; simp at h2
  · intro s hnone
    unfold Api.process_trade
    split_ifs with h1 h2
    · rfl
    · rfl
    · simp only [hnone]

/-- A concrete trade request used to witness C5: a 32-character offline
id, amount 5, manual env 1, not a preview. -/
def c5_req : TradeRequest :=
  { player_id := "00000000000000000000000000000000"
    player_name := "p"
    item_id := "i"
    amount := 5
    base_price := 100
    decay_lambda := 0
    iota := none
    manual_env_index := some 1
    is_preview := false }

/-- The empty player history used in concrete scenarios. -/
def empty_history : PlayerSalesHistory := { player_name := "p", item_sales := [] }

/-- **C5, witness.** -/
theorem c5_witness :
    (¬ (|c5_req.amount| < 1e-10)) ∧
    ((Logic.execute_trade_logic c5_req test_config empty_history false true
        (1, "Normal") 0).2.isSome ↔
      (¬ c5_req.is_preview ∧
        0 < (Logic.execute_trade_logic c5_req test_config empty_history false true
          (1, "Normal") 0).1.total_price)) := by
  constructor
  · norm_num [c5_req]
  · exact (c5_record_iff c5_req test_config empty_history false true
      (1, "Normal") 0).1 (by norm_num [c5_req]) (by decide)

/-! ## Claim C10: totality of the guarded integral-revenue function -/

theorem calculate_integral_revenue_nonneg {base env start amt lambda : ℝ}
    (henv : 0 ≤ env) : 0 ≤ Pricing.calculate_integral_revenue base env start amt lambda := by
  simp only [Pricing.calculate_integral_revenue]
  split_ifs with h1 h2 h3
  · exact le_refl 0
  · push_neg at h1
    exact round_2_nonneg (mul_nonneg (mul_nonneg henv h1.2.le) h1.1.le)
  · exact le_refl 0
  · push_neg at h3
    exact round_2_nonneg h3

/-- **C10 (confirmed).**  `PricingEngine::calculate_integral_revenue`
(`src/logic/pricing.rs`) is total over the whole `f64` input domain:
whenever `amount ≤ 0`, `basePrice ≤ 0` (in the IEEE sense) or either is
non-finite, it returns exactly `0.0`; and for every input with `ε ≥ 0`
the result is never negative — the negative-revenue branch is never the
returned value. -/
theorem c10_total_guard :
    (∀ (base amt : Pricing.F64) (env start lambda : ℝ),
      (amt.leZero ∨ base.leZero ∨ ¬ amt.isFinite ∨ ¬ base.isFinite) →
      Pricing.calculate_integral_revenue_checked base amt env start lambda = 0) ∧
    (∀ (base amt : Pricing.F64) (env start lambda : ℝ), 0 ≤ env →
      0 ≤ Pricing.calculate_integral_revenue_checked base amt env start lambda) := by
  constructor
  · intro base amt env start lambda h
    unfold Pricing.calculate_integral_revenue_checked
    by_cases hf : ¬ amt.isFinite ∨ ¬ base.isFinite
    · rw [if_pos hf]
    · rw [if_neg hf]
      push_neg at hf
      obtain ⟨hfa, hfb⟩ := hf
      have hval : amt.toReal ≤ 0 ∨ base.toReal ≤ 0 := by
        rcases h with h | h | h | h
        · left
          cases amt with
          | val x => exact h
          | posInf => simp [Pricing.F64.isFinite] at hfa
          | negInf => simp [Pricing.F64.isFinite] at hfa
          | nan => simp [Pricing.F64.isFinite] at hfa
        · right
          cases base with
          | val x => exact h
          | posInf => simp [Pricing.F64.isFinite] at hfb
          | negInf => simp [Pricing.F64.isFinite] at hfb
          | nan => simp [Pricing.F64.isFinite] at hfb
        · exact absurd hfa h
        · exact absurd hfb h
      unfold Pricing.calculate_integral_revenue
      rw [if_pos hval]
  · intro base amt env start lambda henv
    unfold Pricing.calculate_integral_revenue_checked
    split_ifs with hf
    · exact le_refl 0
    · exact calculate_integral_revenue_nonneg henv

/-- **C10, witness.** -/
theorem c10_witness :
    ((Pricing.F64.nan.leZero ∨ (Pricing.F64.val 1).leZero ∨
        ¬ Pricing.F64.nan.isFinite ∨ ¬ (Pricing.F64.val 1).isFinite) ∧
      Pricing.calculate_integral_revenue_checked (Pricing.F64.val 1) Pricing.F64.nan 1 0 1 = 0) ∧
    ((0:ℝ) ≤ 1 ∧
      0 ≤ Pricing.calculate_integral_revenue_checked (Pricing.F64.val 1) (Pricing.F64.val 1) 1 0 1) :=
  ⟨⟨Or.inr (Or.inr (Or.inl (by simp [Pricing.F64.isFinite]))),
    c10_total_guard.1 (Pricing.F64.val 1) Pricing.F64.nan 1 0 1
      (Or.inr (Or.inr (Or.inl (by simp [Pricing.F64.isFinite]))))⟩,
   ⟨by norm_num,
    c10_total_guard.2 (Pricing.F64.val 1) (Pricing.F64.val 1) 1 0 1 (by norm_num)⟩⟩

/-! ## Exponential bounds used for the numeric counterexamples -/

theorem exp_neg_le_inv_one_add {t : ℝ} (ht : 0 ≤ t) : Real.exp (-t) ≤ (1 + t)⁻¹ := by
  have h1 : 1 + t ≤ Real.exp t := by have := Real.add_one_le_exp t; linarith
  have hp : (0:ℝ) < 1 + t := by linarith
  rw [Real.exp_neg]
  exact inv_anti₀ hp h1

theorem one_sub_le_exp_neg_alt (t : ℝ) : 1 - t ≤ Real.exp (-t) := by
  have := Real.add_one_le_exp (-t)
  linarith

theorem exp_neg_le_one_alt {t : ℝ} (ht : 0 ≤ t) : Real.exp (-t) ≤ 1 :=
  Real.exp_le_one_iff.mpr (by linarith)

/-! ## Claim C1: closed form of the integral revenue -/

/-- **C1, counterexample.**  The claim states the linear degenerate case
fires for `|λ| < 1e-9` in "the integral revenue function", but
`PricingEngine::calculate_integral_revenue` in `src/logic/pricing.rs`
switches at `1e-10`: at `λ = 5·10⁻¹⁰` (inside `[1e-10, 1e-9)`), with
`basePrice = ε = 1`, `n₁ = 0`, `Δn = 2·10⁹`, it evaluates the exponential
form `2·10⁹·(1 − e⁻¹) ≈ 1.26·10⁹`, not the claimed linear
`round₂(ε·p₀·Δn) = 2·10⁹`. -/
theorem c1_counterexample :
    Pricing.calculate_integral_revenue 1 1 0 (2 * 10 ^ 9) (5 / 10 ^ 10) ≠
      round_2 (1 * 1 * (2 * 10 ^ 9)) := by
  have habs : |(5 / 10 ^ 10 : ℝ)| = 5 / 10 ^ 10 := abs_of_pos (by norm_num)
  simp only [Pricing.calculate_integral_revenue, habs]
  rw [if_neg (by push_neg; constructor <;> norm_num)]
  rw [if_neg (by norm_num)]
  rw [show (-(5 / 10 ^ 10 : ℝ) * 0) = 0 by ring, Real.exp_zero]
  rw [show (-(5 / 10 ^ 10 : ℝ) * (0 + 2 * 10 ^ 9)) = -1 by norm_num]
  rw [show ((1 * 1 : ℝ) / (5 / 10 ^ 10)) = 2 * 10 ^ 9 by norm_num]
  have hE1 : Real.exp (-1) ≤ 1 := exp_neg_le_one_alt (by norm_num)
  have hE2 : (0.36 : ℝ) ≤ Real.exp (-1) := by
    rw [Real.exp_neg]
    have h9 : Real.exp 1 ≤ 2.7182818286 := le_of_lt Real.exp_one_lt_d9
    have := inv_anti₀ (Real.exp_pos 1) h9
    have hc : ((2.7182818286 : ℝ))⁻¹ ≥ 0.36 := by norm_num
    linarith
  rw [if_neg (not_lt.mpr (by nlinarith))]
  intro heq
  have hL := abs_le.mp (abs_round_2_sub (2 * 10 ^ 9 * (1 - Real.exp (-1))))
  have hR := abs_le.mp (abs_round_2_sub ((1 * 1 * (2 * 10 ^ 9)) : ℝ))
  rw [heq] at hL
  nlinarith [hL.1, hL.2, hR.1, hR.2]

/-- **C1 (amended).**  For finite `basePrice > 0`, `ε > 0`, `n₁ ≥ 0`,
`Δn > 0`: the `src/logic.rs` variant `integral_revenue` behaves exactly
as the claim states, with threshold `1e-9` — exponential closed form
(clamped ≥ 0, rounded to 2 decimals) when `|λ| ≥ 1e-9`, linear
`round₂(ε·p₀·Δn)` when `|λ| < 1e-9`.  The `src/logic/pricing.rs` variant
`calculate_integral_revenue` obeys the same two formulas but switches at
`1e-10` instead of the claimed `1e-9` (refutation: `c1_counterexample`). -/
theorem c1_integral_revenue_formula (base env n1 amt lambda : ℝ)
    (hbase : 0 < base) (henv : 0 < env) (_hn1 : 0 ≤ n1) (hamt : 0 < amt) :
    (1e-9 ≤ |lambda| →
      Logic.integral_revenue base env n1 amt lambda =
        round_2 (max (env * base / |lambda| *
          (Real.exp (-|lambda| * n1) - Real.exp (-|lambda| * (n1 + amt)))) 0)) ∧
    (|lambda| < 1e-9 →
      Logic.integral_revenue base env n1 amt lambda = round_2 (env * base * amt)) ∧
    (1e-10 ≤ |lambda| →
      Pricing.calculate_integral_revenue base env n1 amt lambda =
        round_2 (max (env * base / |lambda| *
          (Real.exp (-|lambda| * n1) - Real.exp (-|lambda| * (n1 + amt)))) 0)) ∧
    (|lambda| < 1e-10 →
      Pricing.calculate_integral_revenue base env n1 amt lambda = round_2 (env * base * amt)) := by
  refine ⟨?_, ?_, ?_, ?_⟩
  · intro hl
    simp only [Logic.integral_revenue]
    rw [if_neg (not_lt.mpr hl), mul_comm base env]
  · intro hl
    simp only [Logic.integral_revenue]
    rw [if_pos hl, mul_comm base env]
  · intro hl
    simp only [Pricing.calculate_integral_revenue]
    rw [if_neg (by push_neg; exact ⟨hamt, hbase⟩)]
    rw [if_neg (not_lt.mpr hl)]
    have hlpos : 0 < |lambda| := lt_of_lt_of_le (by norm_num) hl
    have hexp : Real.exp (-|lambda| * (n1 + amt)) ≤ Real.exp (-|lambda| * n1) :=
      Real.exp_le_exp.mpr (by nlinarith)
    have hrev : 0 ≤ env * base / |lambda| *
        (Real.exp (-|lambda| * n1) - Real.exp (-|lambda| * (n1 + amt))) := by
      apply mul_nonneg
      · positivity
      · linarith
    rw [if_neg (not_lt.mpr hrev), max_eq_left hrev]
  · intro hl
    simp only [Pricing.calculate_integral_revenue]
    rw [if_neg (by push_neg; exact ⟨hamt, hbase⟩)]
    rw [if_pos hl]

/-- **C1, witness.** -/
theorem c1_witness :
    (Logic.integral_revenue 1 1 0 1 1 =
      round_2 (max ((1:ℝ) * 1 / |(1:ℝ)| *
        (Real.exp (-|(1:ℝ)| * 0) - Real.exp (-|(1:ℝ)| * (0 + 1)))) 0)) ∧
    (Logic.integral_revenue 1 1 0 1 0 = round_2 ((1:ℝ) * 1 * 1)) ∧
    (Pricing.calculate_integral_revenue 1 1 0 1 1 =
      round_2 (max ((1:ℝ) * 1 / |(1:ℝ)| *
        (Real.exp (-|(1:ℝ)| * 0) - Real.exp (-|(1:ℝ)| * (0 + 1)))) 0)) ∧
    (Pricing.calculate_integral_revenue 1 1 0 1 0 = round_2 ((1:ℝ) * 1 * 1)) :=
  ⟨(c1_integral_revenue_formula 1 1 0 1 1 (by norm_num) (by norm_num) (by norm_num)
      (by norm_num)).1 (by norm_num),
   (c1_integral_revenue_formula 1 1 0 1 0 (by norm_num) (by norm_num) (by norm_num)
      (by norm_num)).2.1 (by norm_num),
   (c1_integral_revenue_formula 1 1 0 1 1 (by norm_num) (by norm_num) (by norm_num)
      (by norm_num)).2.2.1 (by norm_num),
   (c1_integral_revenue_formula 1 1 0 1 0 (by norm_num) (by norm_num) (by norm_num)
      (by norm_num)).2.2.2 (by norm_num)⟩

/-! ## Claim C6: additivity of the integral revenue over the interval -/

/-- Exact integer value of `round_2` from two-sided bounds. -/
theorem round_2_eq_int {x : ℝ} (k : ℤ) (hx : 0 ≤ x)
    (h1 : (k : ℝ) ≤ x * 100 + 1 / 2) (h2 : x * 100 + 1 / 2 < k + 1) :
    round_2 x = (k : ℝ) / 100 := by
  unfold round_2
  rw [fround_of_nonneg (by positivity), round_eq]
  have hfl : ⌊x * 100 + 1 / 2⌋ = k := by
    rw [Int.floor_eq_iff]
    · exact ⟨h1, by linarith⟩
  rw [hfl]

/-- In the exponential branch (`|λ| ≥ 1e-9`), `integral_revenue` is the
rounded clamped closed form. -/
theorem integral_revenue_exp (base env n1 amt lambda : ℝ) (hl : 1e-9 ≤ |lambda|) :
    Logic.integral_revenue base env n1 amt lambda =
      round_2 (max (base * env / |lambda| *
        (Real.exp (-|lambda| * n1) - Real.exp (-|lambda| * (n1 + amt)))) 0) := by
  simp only [Logic.integral_revenue]
  rw [if_neg (not_lt.mpr hl)]

/-- For positive prices and `|λ| ≥ 1e-9` the two co-existing integral
revenue implementations coincide. -/
theorem variants_agree (base env n1 amt lambda : ℝ)
    (hbase : 0 < base) (henv : 0 < env) (hamt : 0 < amt) (hl : 1e-9 ≤ |lambda|) :
    Pricing.calculate_integral_revenue base env n1 amt lambda =
      Logic.integral_revenue base env n1 amt lambda := by
  have hlpos : 0 < |lambda| := lt_of_lt_of_le (by norm_num) hl
  have hexp : Real.exp (-|lambda| * (n1 + amt)) ≤ Real.exp (-|lambda| * n1) :=
    Real.exp_le_exp.mpr (by nlinarith)
  have hrev : 0 ≤ env * base / |lambda| *
      (Real.exp (-|lambda| * n1) - Real.exp (-|lambda| * (n1 + amt))) := by
    apply mul_nonneg
    · positivity
    · linarith
  simp only [Pricing.calculate_integral_revenue, Logic.integral_revenue]
  rw [if_neg (by push_neg; exact ⟨hamt, hbase⟩)]
  rw [if_neg (not_lt.mpr (le_trans (by norm_num) hl))]
  rw [if_neg (not_lt.mpr hl)]
  rw [if_neg (not_lt.mpr hrev)]
  rw [mul_comm base env, max_eq_left hrev]

/-- **C6, counterexample.**  The claimed `1e-6` additivity tolerance is
broken by the 2-decimal rounding inside `R`: at `basePrice = 1/250`,
`ε = 1`, `λ = 1e-9`, `n₁ = 0`, `Δn₁ = Δn₂ = 1`, the three integrals round
to `0`, `0` and `0.01`, so the additivity defect is `0.01 > 1e-6` (all
claimed input-validity conditions hold at this point). -/
theorem c6_counterexample :
    (0:ℝ) < 1/250 ∧ (0:ℝ) < 1 ∧ (1e-9:ℝ) ≤ |(1e-9:ℝ)| ∧ |(1e-9:ℝ)| ≤ 10 ∧
    ¬ (|Logic.integral_revenue (1/250) 1 0 1 1e-9 +
        Logic.integral_revenue (1/250) 1 (0 + 1) 1 1e-9 -
        Logic.integral_revenue (1/250) 1 0 (1 + 1) 1e-9| ≤ 1e-6) := by
  have habs : |(1e-9:ℝ)| = 1e-9 := abs_of_pos (by norm_num)
  refine ⟨by norm_num, by norm_num, by rw [habs], by rw [habs]; norm_num, ?_⟩
  have hE0 : 0 < Real.exp (-(1e-9:ℝ)) := Real.exp_pos _
  have hEu : Real.exp (-(1e-9:ℝ)) ≤ 1 := exp_neg_le_one_alt (by norm_num)
  have hEl : 1 - 1e-9 ≤ Real.exp (-(1e-9:ℝ)) := one_sub_le_exp_neg_alt 1e-9
  have hEinv : Real.exp (-(1e-9:ℝ)) ≤ (1 + 1e-9)⁻¹ := exp_neg_le_inv_one_add (by norm_num)
  have h1 : Logic.integral_revenue (1/250) 1 0 1 1e-9 = 0 := by
    rw [integral_revenue_exp _ _ _ _ _ (by rw [habs]), habs]
    rw [show (-(1e-9:ℝ) * 0) = 0 by ring, Real.exp_zero]
    rw [show (-(1e-9:ℝ) * (0 + 1)) = -(1e-9) by ring]
    have hx : (0:ℝ) ≤ 1/250 * 1 / 1e-9 * (1 - Real.exp (-(1e-9:ℝ))) := by
      apply mul_nonneg (by norm_num)
      linarith
    rw [max_eq_left hx]
    apply round_2_eq_zero hx
    nlinarith
  have h2 : Logic.integral_revenue (1/250) 1 (0 + 1) 1 1e-9 = 0 := by
    rw [integral_revenue_exp _ _ _ _ _ (by rw [habs]), habs]
    rw [show (-(1e-9:ℝ) * (0 + 1)) = -(1e-9) by ring]
    rw [show (-(1e-9:ℝ) * (0 + 1 + 1)) = -(1e-9) + -(1e-9) by ring, Real.exp_add]
    have hx : (0:ℝ) ≤ 1/250 * 1 / 1e-9 *
        (Real.exp (-(1e-9:ℝ)) - Real.exp (-(1e-9:ℝ)) * Real.exp (-(1e-9:ℝ))) := by
      apply mul_nonneg (by norm_num)
      nlinarith
    rw [max_eq_left hx]
    apply round_2_eq_zero hx
    nlinarith
  have h3 : Logic.integral_revenue (1/250) 1 0 (1 + 1) 1e-9 = 1 / 100 := by
    rw [integral_revenue_exp _ _ _ _ _ (by rw [habs]), habs]
    rw [show (-(1e-9:ℝ) * 0) = 0 by ring, Real.exp_zero]
    rw [show (-(1e-9:ℝ) * (0 + (1 + 1))) = -(1e-9) + -(1e-9) by ring, Real.exp_add]
    have hx : (0:ℝ) ≤ 1/250 * 1 / 1e-9 *
        (1 - Real.exp (-(1e-9:ℝ)) * Real.exp (-(1e-9:ℝ))) := by
      apply mul_nonneg (by norm_num)
      nlinarith
    rw [max_eq_left hx]
    have := round_2_eq_int (x := 1/250 * 1 / 1e-9 *
        (1 - Real.exp (-(1e-9:ℝ)) * Real.exp (-(1e-9:ℝ)))) 1 hx ?_ ?_
    · rw [this]; norm_num
    · nlinarith
    · nlinarith
  rw [h1, h2, h3]
  rw [show ((0:ℝ) + 0 - 1 / 100) = -(1 / 100) by ring, abs_neg,
    abs_of_pos (show (0:ℝ) < 1 / 100 by norm_num)]
  norm_num

/-- **C6 (amended).**  For all valid inputs (`basePrice > 0`, `ε > 0`,
`n₁ ≥ 0`, `Δn₁, Δn₂ > 0`, `|λ| ∈ [1e-9, 10]`), the additivity defect of
the implemented `R` (with its clamping and 2-decimal rounding) is bounded
by `0.015` — three roundings of at most half a cent each; the unrounded
integrals are exactly additive.  The claimed `1e-6` tolerance fails
(`c6_counterexample`).  Both implementation variants coincide on this
λ-range, so the bound holds for each. -/
theorem c6_additivity_bound (base env n1 d1 d2 lambda : ℝ)
    (hbase : 0 < base) (henv : 0 < env) (_hn1 : 0 ≤ n1) (hd1 : 0 < d1) (hd2 : 0 < d2)
    (hll : 1e-9 ≤ |lambda|) (_hlu : |lambda| ≤ 10) :
    |Logic.integral_revenue base env n1 d1 lambda +
      Logic.integral_revenue base env (n1 + d1) d2 lambda -
      Logic.integral_revenue base env n1 (d1 + d2) lambda| ≤ 0.015 ∧
    |Pricing.calculate_integral_revenue base env n1 d1 lambda +
      Pricing.calculate_integral_revenue base env (n1 + d1) d2 lambda -
      Pricing.calculate_integral_revenue base env n1 (d1 + d2) lambda| ≤ 0.015 := by
  have hlpos : 0 < |lambda| := lt_of_lt_of_le (by norm_num) hll
  have key : |Logic.integral_revenue base env n1 d1 lambda +
      Logic.integral_revenue base env (n1 + d1) d2 lambda -
      Logic.integral_revenue base env n1 (d1 + d2) lambda| ≤ 0.015 := by
    rw [integral_revenue_exp _ _ _ _ _ hll, integral_revenue_exp _ _ _ _ _ hll,
      integral_revenue_exp _ _ _ _ _ hll]
    rw [show n1 + (d1 + d2) = n1 + d1 + d2 by ring]
    have hAB : Real.exp (-|lambda| * (n1 + d1)) ≤ Real.exp (-|lambda| * n1) :=
      Real.exp_le_exp.mpr (by nlinarith)
    have hBC : Real.exp (-|lambda| * (n1 + d1 + d2)) ≤ Real.exp (-|lambda| * (n1 + d1)) :=
      Real.exp_le_exp.mpr (by nlinarith)
    have hg1 : 0 ≤ base * env / |lambda| *
        (Real.exp (-|lambda| * n1) - Real.exp (-|lambda| * (n1 + d1))) := by
      apply mul_nonneg (by positivity)
      linarith
    have hg2 : 0 ≤ base * env / |lambda| *
        (Real.exp (-|lambda| * (n1 + d1)) - Real.exp (-|lambda| * (n1 + d1 + d2))) := by
      apply mul_nonneg (by positivity)
      linarith
    have hg3 : 0 ≤ base * env / |lambda| *
        (Real.exp (-|lambda| * n1) - Real.exp (-|lambda| * (n1 + d1 + d2))) := by
      apply mul_nonneg (by positivity)
      linarith
    rw [max_eq_left hg1, max_eq_left hg2, max_eq_left hg3]
    have b1 := abs_le.mp (abs_round_2_sub (base * env / |lambda| *
      (Real.exp (-|lambda| * n1) - Real.exp (-|lambda| * (n1 + d1)))))
    have b2 := abs_le.mp (abs_round_2_sub (base * env / |lambda| *
      (Real.exp (-|lambda| * (n1 + d1)) - Real.exp (-|lambda| * (n1 + d1 + d2)))))
    have b3 := abs_le.mp (abs_round_2_sub (base * env / |lambda| *
      (Real.exp (-|lambda| * n1) - Real.exp (-|lambda| * (n1 + d1 + d2)))))
    rw [abs_le]
    constructor <;> nlinarith [b1.1, b1.2, b2.1, b2.2, b3.1, b3.2]
  refine ⟨key, ?_⟩
  rw [variants_agree _ _ _ _ _ hbase henv hd1 hll,
    variants_agree _ _ _ _ _ hbase henv hd2 hll,
    variants_agree _ _ _ _ _ hbase henv (by linarith) hll]
  exact key

/-- **C6, witness.** -/
theorem c6_witness :
    |Logic.integral_revenue 2 1 0 1 1 + Logic.integral_revenue 2 1 (0 + 1) 1 1 -
      Logic.integral_revenue 2 1 0 (1 + 1) 1| ≤ 0.015 ∧
    |Pricing.calculate_integral_revenue 2 1 0 1 1 +
      Pricing.calculate_integral_revenue 2 1 (0 + 1) 1 1 -
      Pricing.calculate_integral_revenue 2 1 0 (1 + 1) 1| ≤ 0.015 :=
  c6_additivity_bound 2 1 0 1 1 1 (by norm_num) (by norm_num) (by norm_num)
    (by norm_num) (by norm_num) (by norm_num) (by norm_num)

/-! ## Claim C2: buy-side pricing formula -/

/-- **C2, counterexample.**  The claim omits the `discountQty > 1e-10`
guard of `buy_logic`: when the discounted quantity is positive but at
most `1e-10`, the code silently prices it at `0` instead of
`R(n_start, discountQty)`.  With `p₀ = 8·10¹¹`, `buyPremium = 5/4`
(so `b = 10¹²`), `ε = 1`, `n_eff = 10⁻¹⁰`, `Δn = 1`, `λ = 0`:
the code returns `(1 − 10⁻¹⁰)·10¹² = 10¹² − 100`, while the claimed
formula gives `round₂(10¹²·10⁻¹⁰) + (1 − 10⁻¹⁰)·10¹² = 10¹²`. -/
theorem c2_counterexample :
    Logic.calculate_price (8 * 10 ^ 11) 1 (1 / 10 ^ 10) 1 0 (5 / 4) true ≠
      Logic.integral_revenue ((8 * 10 ^ 11) * (5 / 4)) 1 (max 0 ((1 / 10 ^ 10 : ℝ) - 1))
        ((1 / 10 ^ 10 : ℝ) - max 0 ((1 / 10 ^ 10 : ℝ) - 1)) 0 +
      (1 - ((1 / 10 ^ 10 : ℝ) - max 0 ((1 / 10 ^ 10 : ℝ) - 1))) *
        ((8 * 10 ^ 11) * (5 / 4) * 1) := by
  have hns : max (0:ℝ) ((1 / 10 ^ 10 : ℝ) - 1) = 0 := max_eq_left (by norm_num)
  rw [hns]
  rw [show ((1 / 10 ^ 10 : ℝ) - 0) = 1 / 10 ^ 10 by ring]
  have hR : Logic.integral_revenue ((8 * 10 ^ 11) * (5 / 4)) 1 0 (1 / 10 ^ 10) 0 = 100 := by
    simp only [Logic.integral_revenue]
    rw [if_pos (by norm_num)]
    rw [show ((8 * 10 ^ 11 : ℝ) * (5 / 4) * 1 * (1 / 10 ^ 10)) = 100 by norm_num]
    have := round_2_eq_int (x := (100:ℝ)) 10000 (by norm_num) (by norm_num) (by norm_num)
    rw [this]
    norm_num
  rw [hR]
  simp only [Logic.calculate_price, Logic.buy_logic]
  rw [if_pos trivial]
  have h1 : max ((1 / 10 ^ 10 : ℝ) - 1) 0 = 0 := max_eq_right (by norm_num)
  rw [h1]
  rw [show ((1 / 10 ^ 10 : ℝ) - 0) = 1 / 10 ^ 10 by ring]
  have h2 : max (1 / 10 ^ 10 : ℝ) 0 = 1 / 10 ^ 10 := max_eq_left (by norm_num)
  rw [h2]
  rw [if_pos (by norm_num : (1 / 10 ^ 10 : ℝ) < 1)]
  rw [if_neg (by norm_num : ¬ ((1e-10 : ℝ) < 1 / 10 ^ 10))]
  norm_num

/-- **C2 (amended).**  For every buy trade with `n_eff ≥ 0` and `Δn > 0`:
with `n_start = max(0, n_eff − Δn)` and `discountQty = n_eff − n_start`,
the buy price is `R(n_start, discountQty) + (Δn − discountQty)·(p₀·buyPremium·ε)`
when `discountQty < Δn` — *except* that the integral term is taken as `0`
whenever `discountQty ≤ 1e-10` (the code's `EPSILON_AMT` guard, refuting
the unguarded original claim, `c2_counterexample`) — and
`R(n_start, Δn)` otherwise, where `R` is `integral_revenue` with base
`p₀·buyPremium`. -/
theorem c2_buy_price_formula (p0 env n_eff amt lambda premium : ℝ)
    (hn : 0 ≤ n_eff) (hamt : 0 < amt) :
    Logic.calculate_price p0 env n_eff amt lambda premium true =
      (if n_eff - max 0 (n_eff - amt) < amt then
        (if 1e-10 < n_eff - max 0 (n_eff - amt) then
          Logic.integral_revenue (p0 * premium) env (max 0 (n_eff - amt))
            (n_eff - max 0 (n_eff - amt)) lambda
        else 0) + (amt - (n_eff - max 0 (n_eff - amt))) * (p0 * premium * env)
      else
        Logic.integral_revenue (p0 * premium) env (max 0 (n_eff - amt)) amt lambda) := by
  simp only [Logic.calculate_price, Logic.buy_logic]
  rw [if_pos trivial]
  rw [max_comm (n_eff - amt) 0]
  have hpos : 0 ≤ n_eff - max 0 (n_eff - amt) := by
    have : max 0 (n_eff - amt) ≤ n_eff := max_le hn (by linarith)
    linarith
  rw [max_eq_left hpos]
  split_ifs with h1 h2
  · ring
  · ring
  · rfl

/-- **C2, witness.** -/
theorem c2_witness :
    (0:ℝ) ≤ 5 ∧ (0:ℝ) < 2 ∧
    Logic.calculate_price 100 1 5 2 0 (5 / 4) true =
      (if (5:ℝ) - max 0 (5 - 2) < 2 then
        (if 1e-10 < (5:ℝ) - max 0 (5 - 2) then
          Logic.integral_revenue (100 * (5 / 4)) 1 (max 0 ((5:ℝ) - 2))
            (5 - max 0 ((5:ℝ) - 2)) 0
        else 0) + (2 - ((5:ℝ) - max 0 (5 - 2))) * (100 * (5 / 4) * 1)
      else
        Logic.integral_revenue (100 * (5 / 4)) 1 (max 0 ((5:ℝ) - 2)) 2 0) :=
  ⟨by norm_num, by norm_num,
    c2_buy_price_formula 100 1 5 2 0 (5 / 4) (by norm_num) (by norm_num)⟩

/-! ## Claim C7: capacity bounds of the per-item sequences and the ring -/

/-- Every per-item record list in an association list is within the cap. -/
def vals_bounded (l : List (String × List SalesRecord)) : Prop :=
  ∀ p ∈ l, p.2.length ≤ 100

theorem push_trunc_length {l : List SalesRecord} (h : l.length ≤ 100) (r : SalesRecord) :
    (Api.push_trunc l r).length ≤ 100 := by
  simp only [Api.push_trunc]
  split_ifs with hlen
  · simp only [List.length_drop, List.length_append, List.length_singleton]
    omega
  · push_neg at hlen
    simpa using hlen

theorem update_assoc_bounded {l : List (String × List SalesRecord)}
    (hl : vals_bounded l) (k : String) (f : List SalesRecord → List SalesRecord)
    (hf : ∀ v, v.length ≤ 100 → (f v).length ≤ 100) :
    vals_bounded (Api.update_assoc l k f) := by
  induction l with
  | nil =>
      intro p hp
      simp only [Api.update_assoc, List.mem_singleton] at hp
      subst hp
      exact hf [] (by simp)
  | cons hd tl ih =>
      intro p hp
      obtain ⟨k', v⟩ := hd
      simp only [Api.update_assoc] at hp
      split_ifs at hp with hk
      · rcases List.mem_cons.mp hp with h | h
        · subst h
          exact hf v (hl (k', v) (List.mem_cons_self _ _))
        · exact hl p (List.mem_cons_of_mem _ h)
      · rcases List.mem_cons.mp hp with h | h
        · subst h
          exact hl (k', v) (List.mem_cons_self _ _)
        · exact ih (fun q hq => hl q (List.mem_cons_of_mem _ hq)) p h

/-- The bounds claimed in C7, as a state predicate. -/
def caps_ok (s : Api.SysState) : Prop :=
  (∀ pid, vals_bounded ((s.player_histories pid).item_sales)) ∧
    s.history_ring.length ≤ 1000

theorem persist_preserves_caps {s : Api.SysState} (h : caps_ok s)
    (r : TransactionRecord) : caps_ok (Api.persist_transaction s r) := by
  obtain ⟨hh, hr⟩ := h
  simp only [Api.persist_transaction]
  split_ifs with hc
  · refine ⟨?_, hr⟩
    intro pid
    simp only [Api.update_player_histories]
    split_ifs with hp
    · exact update_assoc_bounded (hh pid) _ _ (fun v hv => push_trunc_length hv _)
    · exact hh pid
  · refine ⟨?_, hr⟩
    intro pid
    simp only [Api.update_player_histories]
    split_ifs with hp
    · exact update_assoc_bounded (hh pid) _ _ (fun v hv => push_trunc_length hv _)
    · exact hh pid

theorem writer_preserves_caps {s : Api.SysState} (h : caps_ok s) :
    caps_ok (Api.writer_recv s) := by
  obtain ⟨hh, hr⟩ := h
  cases hch : s.channel with
  | nil =>
      simp only [Api.writer_recv, hch]
      exact ⟨hh, hr⟩
  | cons rec rest =>
      simp only [Api.writer_recv, hch]
      refine ⟨hh, ?_⟩
      split_ifs with hlen
      · simp only [List.length_drop, List.length_append, List.length_singleton]
        omega
      · push_neg at hlen
        simpa [Api.MAX_CACHE_SIZE] using hlen

theorem run_steps_preserves_caps {s : Api.SysState} (h : caps_ok s)
    (steps : List Api.SysStep) : caps_ok (Api.run_steps s steps) := by
  induction steps generalizing s with
  | nil => exact h
  | cons st rest ih =>
      apply ih
      cases st with
      | persist r => exact persist_preserves_caps h r
      | writer => exact writer_preserves_caps h

/-- **C7 (confirmed).**  From the freshly started system, after any
interleaving of persisted transactions and background-writer receives,
every per-player per-item sales sequence has length ≤ 100 (drop-oldest on
overflow in `persist_transaction`) and the global in-memory history ring
has length ≤ 1000 (drop-oldest in `background_writer_task`). -/
theorem c7_capacity_bounds (steps : List Api.SysStep) :
    (∀ pid p, p ∈ ((Api.run_steps Api.init_state steps).player_histories pid).item_sales →
      p.2.length ≤ 100) ∧
    (Api.run_steps Api.init_state steps).history_ring.length ≤ 1000 := by
  have h0 : caps_ok Api.init_state := by
    constructor
    · intro pid p hp
      simp [Api.init_state] at hp
    · simp [Api.init_state]
  exact run_steps_preserves_caps h0 steps

/-- **C7, witness.** -/
theorem c7_witness :
    (∀ pid p, p ∈ ((Api.run_steps Api.init_state
        [Api.SysStep.persist default, Api.SysStep.writer]).player_histories pid).item_sales →
      p.2.length ≤ 100) ∧
    (Api.run_steps Api.init_state
      [Api.SysStep.persist default, Api.SysStep.writer]).history_ring.length ≤ 1000 :=
  c7_capacity_bounds [Api.SysStep.persist default, Api.SysStep.writer]

/-! ## Claim C8: backpressure accounting -/

/-- Modelled from the spec: the persistence producer the specification
describes, which on a failed channel send additionally pushes the record
onto an emergency memory ring capped at 1000 with drop-oldest.  The
source repository has no such ring (`persist_transaction` in `api.rs`
only bumps `channel_dropped` and logs); this definition exists solely to
exhibit the divergence. -/
noncomputable def persist_transaction_spec (s : Api.SysState)
    (record : TransactionRecord) : Api.SysState :=
  let s1 := { s with
    metrics := { s.metrics with total_trades := s.metrics.total_trades + 1 }
    player_histories := Api.update_player_histories s.player_histories record }
  if s1.channel.length < Api.CHANNEL_CAPACITY then
    { s1 with channel := s1.channel ++ [record] }
  else
    let ring := s1.emergency_ring ++ [record]
    { s1 with
      metrics := { s1.metrics with channel_dropped := s1.metrics.channel_dropped + 1 }
      warn_log := s1.warn_log ++ ["写入通道背压过高，丢弃日志以保护 API 响应速度"]
      emergency_ring := if 1000 < ring.length then ring.drop 1 else ring }

/-- A state whose bounded channel is exactly full. -/
def c8_full_state : Api.SysState :=
  { Api.init_state with channel := List.replicate 2000 default }

theorem c8_full_state_channel_length : c8_full_state.channel.length = 2000 := by
  show (List.replicate 2000 (default : TransactionRecord)).length = 2000
  exact List.length_replicate _ _

theorem c8_full_state_emergency : c8_full_state.emergency_ring = [] := rfl

theorem c8_full_state_not_room :
    ¬ c8_full_state.channel.length < Api.CHANNEL_CAPACITY := by
  rw [c8_full_state_channel_length]
  exact fun h => absurd h (by norm_num [Api.CHANNEL_CAPACITY])

/-- **C8, counterexample.**  On a full channel the source
`persist_transaction` leaves every ring untouched — the dropped record is
*not* pushed to any emergency memory ring (no such ring exists in the
code), contrary to the claim; the spec-modelled producer
(`persist_transaction_spec`) would have pushed it. -/
theorem c8_counterexample :
    c8_full_state.channel.length = Api.CHANNEL_CAPACITY ∧
    ¬ ((default : TransactionRecord) ∈
        (Api.persist_transaction c8_full_state default).emergency_ring) ∧
    ((default : TransactionRecord) ∈
        (persist_transaction_spec c8_full_state default).emergency_ring) := by
  refine ⟨?_, ?_, ?_⟩
  · rw [c8_full_state_channel_length]
    rfl
  · have he : (Api.persist_transaction c8_full_state default).emergency_ring =
        c8_full_state.emergency_ring := by
      simp only [Api.persist_transaction]
      split_ifs <;> rfl
    rw [he, c8_full_state_emergency]
    exact List.not_mem_nil _
  · simp only [persist_transaction_spec]
    split_ifs with h h2
    · exact absurd h c8_full_state_not_room
    · exact absurd h2 (by rw [c8_full_state_emergency]; norm_num)
    · rw [c8_full_state_emergency]
      simp

/-- **C8 (amended).**  For every transaction record whose `try_send` on
the bounded persistence channel fails (channel full): `channelDropped` is
incremented by one and a warning is logged; the record is *not* diverted
anywhere (the emergency ring of the spec does not exist — nothing beyond
the counter and the log changes, and the channel is left as-is); and the
originating trade's response is computed independently of the
persistence state, so it still carries `success = true` with its
`totalPrice`.  Refutation of the emergency-ring part:
`c8_counterexample`. -/
theorem c8_drop_accounting (s : Api.SysState) (r : TransactionRecord)
    (hfull : ¬ s.channel.length < Api.CHANNEL_CAPACITY) :
    ((Api.persist_transaction s r).metrics.channel_dropped =
      s.metrics.channel_dropped + 1) ∧
    ((Api.persist_transaction s r).warn_log =
      s.warn_log ++ ["写入通道背压过高，丢弃日志以保护 API 响应速度"]) ∧
    ((Api.persist_transaction s r).emergency_ring = s.emergency_ring) ∧
    ((Api.persist_transaction s r).channel = s.channel) ∧
    (∀ (req : TradeRequest) (config : AppConfig) (ph : PlayerSalesHistory)
        (is_buy mojang_ok : Bool) (env : ℝ × String) (now : ℤ) (s' : Api.SysState),
      (Api.process_trade req config ph is_buy mojang_ok env now s).1 =
        (Api.process_trade req config ph is_buy mojang_ok env now s').1) := by
  refine ⟨?_, ?_, ?_, ?_, ?_⟩
  · simp only [Api.persist_transaction]
    rw [if_neg hfull]
  · simp only [Api.persist_transaction]
    rw [if_neg hfull]
  · simp only [Api.persist_transaction]
    rw [if_neg hfull]
  · simp only [Api.persist_transaction]
    rw [if_neg hfull]
  · intro req config ph is_buy mojang_ok env now s'
    simp only [Api.process_trade]
    split_ifs with h1 h2
    · rfl
    · rfl
    · cases (Logic.execute_trade_logic req config ph is_buy mojang_ok env now).2 with
      | none => rfl
      | some rec => rfl

/-- **C8, witness.** -/
theorem c8_witness :
    (¬ c8_full_state.channel.length < Api.CHANNEL_CAPACITY) ∧
    ((Api.persist_transaction c8_full_state default).metrics.channel_dropped =
      c8_full_state.metrics.channel_dropped + 1) :=
  ⟨c8_full_state_not_room,
   (c8_drop_accounting c8_full_state default c8_full_state_not_room).1⟩

/-! ## Claim C9: batch handler ordering -/

theorem map_getD_range {α β : Type} [Inhabited α] (l : List α) (f : α → β) :
    (List.range l.length).map (fun i => f (l.getD i default)) = l.map f := by
  induction l with
  | nil => simp
  | cons a tl ih =>
      rw [List.length_cons, List.range_succ_eq_map, List.map_cons, List.map_map]
      congr 1

/-- An element request that fails the amount validation. -/
def c9_r0 : TradeRequest :=
  { player_id := "a"
    player_name := "a"
    item_id := "i"
    amount := 0
    base_price := 1
    decay_lambda := 0
    iota := none
    manual_env_index := none
    is_preview := false }

/-- An element request that fails the offline identity check
(`player_id` shorter than 32). -/
def c9_r1 : TradeRequest :=
  { player_id := "b"
    player_name := "b"
    item_id := "i"
    amount := 1
    base_price := 1
    decay_lambda := 0
    iota := none
    manual_env_index := none
    is_preview := false }

/-- **C9, counterexample.**  `handle_batch_sell` uses
`buffer_unordered(10)`, which collects completion order, not input
order.  The swapped completion schedule `[1, 0]` is admissible for two
elements, and on two requests with distinguishable responses the result
list is **not** the input-order response list. -/
theorem c9_counterexample :
    Api.admissible_schedule [c9_r0, c9_r1].length [1, 0] ∧
    Api.run_batch (Api.batch_element test_config empty_history false (1, "Normal") 0)
        [c9_r0, c9_r1] [1, 0] ≠
      [c9_r0, c9_r1].map
        (Api.batch_element test_config empty_history false (1, "Normal") 0) := by
  constructor
  · decide
  · intro heq
    have hrb : Api.run_batch
        (Api.batch_element test_config empty_history false (1, "Normal") 0)
        [c9_r0, c9_r1] [1, 0] =
        [Api.batch_element test_config empty_history false (1, "Normal") 0 c9_r1,
         Api.batch_element test_config empty_history false (1, "Normal") 0 c9_r0] := by
      simp [Api.run_batch]
    have hmap : [c9_r0, c9_r1].map
        (Api.batch_element test_config empty_history false (1, "Normal") 0) =
        [Api.batch_element test_config empty_history false (1, "Normal") 0 c9_r0,
         Api.batch_element test_config empty_history false (1, "Normal") 0 c9_r1] := by
      simp
    rw [hrb, hmap] at heq
    have hff : Api.batch_element test_config empty_history false (1, "Normal") 0 c9_r1 =
        Api.batch_element test_config empty_history false (1, "Normal") 0 c9_r0 :=
      (List.cons.injEq _ _ _ _ ▸ heq).1
    have hm1 : (Api.batch_element test_config empty_history false (1, "Normal") 0
        c9_r1).message = "身份验证失败: ID无效或正版验证超时" := by
      simp only [Api.batch_element, Logic.execute_trade_logic]
      rw [if_neg (by norm_num [c9_r1])]
      rw [if_pos (by decide)]
    have hm0 : (Api.batch_element test_config empty_history false (1, "Normal") 0
        c9_r0).message = "交易量无效 (过小或非数值)" := by
      simp only [Api.batch_element, Logic.execute_trade_logic]
      rw [if_pos (by norm_num [c9_r0])]
    rw [hff, hm0] at hm1
    exact absurd hm1 (by decide)

/-- **C9 (amended).**  For every batch request and every completion
schedule that `buffer_unordered(10)` can produce (starts in input order,
at most 10 in flight — the admissibility constraint), the result list has
the same length as the input and is a permutation of the input-order
response list, each element's response computed independently by its own
pipeline; but the order is the completion order, and input order is
*not* guaranteed (`c9_counterexample`). -/
theorem c9_batch_permutation (f : TradeRequest → TradeResponse)
    (reqs : List TradeRequest) (sched : List ℕ)
    (h : Api.admissible_schedule reqs.length sched) :
    (Api.run_batch f reqs sched).length = reqs.length ∧
    (Api.run_batch f reqs sched).Perm (reqs.map f) := by
  obtain ⟨hperm, _⟩ := h
  have h2 : (Api.run_batch f reqs sched).Perm
      ((List.range reqs.length).map (fun i => f (reqs.getD i default))) :=
    List.Perm.map _ hperm
  rw [map_getD_range] at h2
  exact ⟨h2.length_eq.trans (List.length_map _ _), h2⟩

/-- **C9, witness.** -/
theorem c9_witness :
    Api.admissible_schedule [c9_r0].length [0] ∧
    ((Api.run_batch (fun _ => (default : TradeResponse)) [c9_r0] [0]).length =
        [c9_r0].length ∧
      (Api.run_batch (fun _ => (default : TradeResponse)) [c9_r0] [0]).Perm
        ([c9_r0].map (fun _ => (default : TradeResponse)))) :=
  ⟨by decide,
   c9_batch_permutation (fun _ => (default : TradeResponse)) [c9_r0] [0] (by decide)⟩

end EconomyCore
